import Mathlib

/-!
Shallow embedding of the circuit-breaker-simulator crate
(src/circuit-breaker-simulator/src/{circuit_breaker,count,time,cb}.rs).

Modelling conventions:
* Rust `u8` counters and thresholds are modelled as `Nat`. Every increment in
  the source is immediately preceded by an `assert!` bounding the counter
  strictly below a `u8` threshold, so `u8` overflow is impossible on any call
  that passes its asserts; plain `Nat` successor is therefore exact.
* `assert!` failures and the `panic` of a failed construction are modelled by
  returning `none`; a successful call returns `some`.
* The wrapped operation `f : FnOnce() -> Result<R, ()>` is modelled by a single
  `Bool` (`true` = `Ok`, `false` = `Err`). Rust's `FnOnce` type already
  guarantees at most one invocation per call; the embedding records whether the
  operation was invoked as a third `Bool` component of the result, set to
  `true` exactly at the branches where the source evaluates `f()`.
* `Instant` and `Duration` are modelled as `Nat`; `Clock::now()` becomes an
  explicit `now` argument to `TimeCB.call` (the deterministic test clock is
  stable within a single call, so both `clock.now()` reads inside one call
  return the same value).
-/

/-- Circuit breaker states (cb.rs / circuit_breaker.rs `CircuitState`). -/
inductive CircuitState where
  | Closed
  | Open
  | HalfOpen
deriving DecidableEq, Repr

/-- Circuit breaker call result (cb.rs / circuit_breaker.rs `CircuitResult`). -/
inductive CircuitResult where
  | Rejected
  | Failed
  | Succeeded
deriving DecidableEq, Repr

/-- circuit_breaker.rs `struct CircuitBreaker` (the ThresholdBreaker). -/
structure CircuitBreaker where
  state : CircuitState
  failure_count : Nat
  failure_threshold : Nat
  half_open_attempts : Nat
  half_open_threshold : Nat
deriving DecidableEq, Repr

/-- circuit_breaker.rs `CircuitBreaker::new`: asserts both thresholds are
positive, else panics (`none`). -/
def CircuitBreaker.new (failure_threshold half_open_threshold : Nat) :
    Option CircuitBreaker :=
  if 0 < failure_threshold ∧ 0 < half_open_threshold then
    some { state := .Closed
           failure_count := 0
           failure_threshold := failure_threshold
           half_open_attempts := 0
           half_open_threshold := half_open_threshold }
  else none

/-- circuit_breaker.rs `CircuitBreaker::call`. The `Bool` result component is
`true` iff the wrapped operation was invoked. -/
def CircuitBreaker.call (cb : CircuitBreaker) (f : Bool) :
    Option (CircuitResult × CircuitBreaker × Bool) :=
  match cb.state with
  | .Closed =>
    if cb.failure_count < cb.failure_threshold ∧ cb.half_open_attempts = 0 then
      if f then
        some (.Succeeded, cb, true)
      else
        let fc := cb.failure_count + 1
        if fc = cb.failure_threshold then
          some (.Failed, { cb with failure_count := fc, state := .Open }, true)
        else
          some (.Failed, { cb with failure_count := fc }, true)
    else none
  | .Open =>
    if cb.failure_count = cb.failure_threshold ∧
        cb.half_open_attempts < cb.half_open_threshold then
      let ha := cb.half_open_attempts + 1
      if ha = cb.half_open_threshold then
        some (.Rejected, { cb with state := .HalfOpen, half_open_attempts := 0 }, false)
      else
        some (.Rejected, { cb with half_open_attempts := ha }, false)
    else none
  | .HalfOpen =>
    if cb.failure_count = cb.failure_threshold ∧
        cb.half_open_attempts < cb.half_open_threshold then
      if f then
        some (.Succeeded, { cb with state := .Closed, failure_count := 0 }, true)
      else
        some (.Failed,
          { cb with state := .Open, failure_count := 0, half_open_attempts := 0 },
          true)
    else none

/-- Run a ThresholdBreaker over a list of operation results, stopping with
`none` at the first assertion failure. -/
def CircuitBreaker.run (cb : CircuitBreaker) : List Bool → Option CircuitBreaker
  | [] => some cb
  | e :: rest =>
    match cb.call e with
    | none => none
    | some (_, cb', _) => cb'.run rest

/-- count.rs `struct CountCB`. -/
structure CountCB where
  state : CircuitState
  closed_failures : Nat
  closed_failures_threshold : Nat
  half_open_attempts : Nat
  half_open_threshold : Nat
deriving DecidableEq, Repr

/-- count.rs `CountCB::new`. -/
def CountCB.new (failure_threshold half_open_threshold : Nat) : Option CountCB :=
  if 0 < failure_threshold ∧ 0 < half_open_threshold then
    some { state := .Closed
           closed_failures := 0
           closed_failures_threshold := failure_threshold
           half_open_attempts := 0
           half_open_threshold := half_open_threshold }
  else none

/-- count.rs `CountCB::call` (trait impl). -/
def CountCB.call (cb : CountCB) (f : Bool) :
    Option (CircuitResult × CountCB × Bool) :=
  match cb.state with
  | .Closed =>
    if cb.closed_failures < cb.closed_failures_threshold ∧
        cb.half_open_attempts = 0 then
      if f then
        some (.Succeeded, { cb with closed_failures := 0 }, true)
      else
        let fc := cb.closed_failures + 1
        if fc = cb.closed_failures_threshold then
          some (.Failed, { cb with closed_failures := fc, state := .Open }, true)
        else
          some (.Failed, { cb with closed_failures := fc }, true)
    else none
  | .Open =>
    if cb.closed_failures = cb.closed_failures_threshold ∧
        cb.half_open_attempts < cb.half_open_threshold then
      let ha := cb.half_open_attempts + 1
      if ha = cb.half_open_threshold then
        some (.Rejected, { cb with state := .HalfOpen, half_open_attempts := 0 }, false)
      else
        some (.Rejected, { cb with half_open_attempts := ha }, false)
    else none
  | .HalfOpen =>
    if cb.closed_failures = cb.closed_failures_threshold ∧
        cb.half_open_attempts < cb.half_open_threshold then
      if f then
        some (.Succeeded, { cb with state := .Closed, closed_failures := 0 }, true)
      else
        some (.Failed, { cb with state := .Open, half_open_attempts := 0 }, true)
    else none

/-- Run a CountBreaker over a list of operation results. -/
def CountCB.run (cb : CountCB) : List Bool → Option CountCB
  | [] => some cb
  | e :: rest =>
    match cb.call e with
    | none => none
    | some (_, cb', _) => cb'.run rest

/-- time.rs `struct TimeCB` (clock factored out as an explicit `now` argument
to `call`). -/
structure TimeCB where
  state : CircuitState
  open_timeout : Nat
  open_at : Option Nat
  closed_failures : Nat
  closed_failures_threshold : Nat
  half_open_probes : Nat
  half_open_probes_threshold : Nat
deriving DecidableEq, Repr

/-- time.rs `TimeCB::with_clock` (and `TimeCB::new`, which forwards to it):
asserts a positive timeout and positive thresholds. -/
def TimeCB.with_clock
    (open_timeout half_open_probes_threshold closed_failures_threshold : Nat) :
    Option TimeCB :=
  if 0 < open_timeout ∧ 0 < half_open_probes_threshold ∧
      0 < closed_failures_threshold then
    some { state := .Closed
           open_timeout := open_timeout
           open_at := none
           closed_failures := 0
           closed_failures_threshold := closed_failures_threshold
           half_open_probes := 0
           half_open_probes_threshold := half_open_probes_threshold }
  else none

/-- time.rs `TimeCB::call` (trait impl). `now` is the clock reading
`self.clock.now()` during this call. -/
def TimeCB.call (cb : TimeCB) (now : Nat) (f : Bool) :
    Option (CircuitResult × TimeCB × Bool) :=
  match cb.state with
  | .Closed =>
    if cb.closed_failures < cb.closed_failures_threshold ∧
        cb.half_open_probes = 0 ∧ cb.open_at = none then
      if f then
        some (.Succeeded, { cb with closed_failures := 0 }, true)
      else
        let fc := cb.closed_failures + 1
        if fc = cb.closed_failures_threshold then
          some (.Failed,
            { cb with closed_failures := fc, state := .Open, open_at := some now },
            true)
        else
          some (.Failed, { cb with closed_failures := fc }, true)
    else none
  | .Open =>
    match cb.open_at with
    | none => none
    | some t =>
      if cb.closed_failures = cb.closed_failures_threshold ∧
          cb.half_open_probes = 0 then
        if t + cb.open_timeout ≤ now then
          -- state := HalfOpen; half_open_probes := 0; then invoke f inline
          if f then
            some (.Succeeded,
              { cb with state := .Closed, closed_failures := 0,
                        open_at := none, half_open_probes := 0 },
              true)
          else
            let hp := 0 + 1
            if hp = cb.half_open_probes_threshold then
              some (.Failed,
                { cb with state := .Open, half_open_probes := 0,
                          open_at := some now },
                true)
            else
              some (.Failed,
                { cb with state := .HalfOpen, half_open_probes := hp }, true)
        else
          some (.Rejected, cb, false)
      else none
  | .HalfOpen =>
    match cb.open_at with
    | none => none
    | some t =>
      if cb.closed_failures = cb.closed_failures_threshold ∧
          cb.half_open_probes < cb.half_open_probes_threshold ∧
          t + cb.open_timeout ≤ now then
        if f then
          some (.Succeeded,
            { cb with state := .Closed, closed_failures := 0,
                      open_at := none, half_open_probes := 0 },
            true)
        else
          let hp := cb.half_open_probes + 1
          if hp = cb.half_open_probes_threshold then
            some (.Failed,
              { cb with state := .Open, half_open_probes := 0,
                        open_at := some now },
              true)
          else
            some (.Failed, { cb with half_open_probes := hp }, true)
      else none

/-- Run a TimeBreaker over a list of (clock reading, operation result) events. -/
def TimeCB.run (cb : TimeCB) : List (Nat × Bool) → Option TimeCB
  | [] => some cb
  | (n, e) :: rest =>
    match cb.call n e with
    | none => none
    | some (_, cb', _) => cb'.run rest

/-- The clock readings of an event list are non-decreasing, starting at `t`. -/
def chainFrom (t : Nat) : List (Nat × Bool) → Bool
  | [] => true
  | (n, _) :: rest => decide (t ≤ n) && chainFrom n rest

/-- The last clock reading of an event list, or `t` if there is none. -/
def lastNow (t : Nat) : List (Nat × Bool) → Nat
  | [] => t
  | (n, _) :: rest => lastNow n rest

/-- Along the event list, no call made while the breaker is `HalfOpen` fails
(the ThresholdBreaker's known-defective transition is never exercised). -/
def CircuitBreaker.probes_ok (cb : CircuitBreaker) : List Bool → Bool
  | [] => true
  | e :: rest =>
    (!(decide (cb.state = .HalfOpen)) || e) &&
    match cb.call e with
    | none => true
    | some (_, cb', _) => cb'.probes_ok rest

/-- The §3 state invariant of the ThresholdBreaker, together with the
construction-time threshold positivity. In `HalfOpen` the attempts counter is
in fact always zero (it is reset on every entry into `HalfOpen`). -/
def ThInv (cb : CircuitBreaker) : Prop :=
  0 < cb.failure_threshold ∧ 0 < cb.half_open_threshold ∧
  (cb.state = .Closed →
    cb.failure_count < cb.failure_threshold ∧ cb.half_open_attempts = 0) ∧
  (cb.state = .Open → cb.failure_count = cb.failure_threshold ∧
    cb.half_open_attempts < cb.half_open_threshold) ∧
  (cb.state = .HalfOpen →
    cb.failure_count = cb.failure_threshold ∧ cb.half_open_attempts = 0)

/-- The §3 state invariant of the CountBreaker, together with the
construction-time threshold positivity. -/
def CountInv (cb : CountCB) : Prop :=
  0 < cb.closed_failures_threshold ∧ 0 < cb.half_open_threshold ∧
  (cb.state = .Closed → cb.closed_failures < cb.closed_failures_threshold ∧
    cb.half_open_attempts = 0) ∧
  (cb.state = .Open → cb.closed_failures = cb.closed_failures_threshold ∧
    cb.half_open_attempts < cb.half_open_threshold) ∧
  (cb.state = .HalfOpen → cb.closed_failures = cb.closed_failures_threshold ∧
    cb.half_open_attempts = 0)

/-- The §3 state invariant of the TimeBreaker relative to the latest clock
reading `t`, together with the construction-time positivity checks. -/
def TimeInv (cb : TimeCB) (t : Nat) : Prop :=
  0 < cb.open_timeout ∧ 0 < cb.closed_failures_threshold ∧
  0 < cb.half_open_probes_threshold ∧
  (cb.state = .Closed → cb.closed_failures < cb.closed_failures_threshold ∧
    cb.half_open_probes = 0 ∧ cb.open_at = none) ∧
  (cb.state = .Open → cb.closed_failures = cb.closed_failures_threshold ∧
    cb.half_open_probes = 0 ∧ ∃ s, cb.open_at = some s) ∧
  (cb.state = .HalfOpen → cb.closed_failures = cb.closed_failures_threshold ∧
    cb.half_open_probes < cb.half_open_probes_threshold ∧
    ∃ s, cb.open_at = some s ∧ s + cb.open_timeout ≤ t)

/-- A CountBreaker call made in an invariant-respecting state passes all its
asserts and preserves the invariant. -/
theorem CountCB.count_call_some_of_inv (cb : CountCB) (f : Bool) (h : CountInv cb) :
    ∃ r cb' inv, cb.call f = some (r, cb', inv) ∧ CountInv cb' := by
  obtain ⟨st, fc, ft, ha, ht⟩ := cb
  cases st with
  | Closed =>
    simp [CountInv] at h
    obtain ⟨hft, hht, hfc, hha⟩ := h
    subst hha
    cases f with
    | true =>
      exact ⟨.Succeeded, ⟨.Closed, 0, ft, 0, ht⟩, true,
        by simp [CountCB.call, hfc], by simp [CountInv]; omega⟩
    | false =>
      by_cases hreach : fc + 1 = ft
      · exact ⟨.Failed, ⟨.Open, fc + 1, ft, 0, ht⟩, true,
          by simp [CountCB.call, hfc, hreach], by simp [CountInv]; omega⟩
      · exact ⟨.Failed, ⟨.Closed, fc + 1, ft, 0, ht⟩, true,
          by simp [CountCB.call, hfc, hreach], by simp [CountInv]; omega⟩
  | Open =>
    simp [CountInv] at h
    obtain ⟨hft, hht, hfc, hha⟩ := h
    subst hfc
    by_cases hreach : ha + 1 = ht
    · exact ⟨.Rejected, ⟨.HalfOpen, fc, fc, 0, ht⟩, false,
        by simp [CountCB.call, hha, hreach], by simp [CountInv]; omega⟩
    · exact ⟨.Rejected, ⟨.Open, fc, fc, ha + 1, ht⟩, false,
        by simp [CountCB.call, hha, hreach], by simp [CountInv]; omega⟩
  | HalfOpen =>
    simp [CountInv] at h
    obtain ⟨hft, hht, hfc, hha⟩ := h
    subst hfc
    subst hha
    cases f with
    | true =>
      exact ⟨.Succeeded, ⟨.Closed, 0, fc, 0, ht⟩, true,
        by simp [CountCB.call, hht], by simp [CountInv]; omega⟩
    | false =>
      exact ⟨.Failed, ⟨.Open, fc, fc, 0, ht⟩, true,
        by simp [CountCB.call, hht], by simp [CountInv]; omega⟩

/-- A CountBreaker run from an invariant-respecting state never hits an
assertion failure and ends in an invariant-respecting state. -/
theorem CountCB.count_run_some_of_inv (cb : CountCB) (evs : List Bool) (h : CountInv cb) :
    ∃ cb', cb.run evs = some cb' ∧ CountInv cb' := by
  induction evs generalizing cb with
  | nil => exact ⟨cb, rfl, h⟩
  | cons e rest ih =>
    obtain ⟨r, cb1, inv, hcall, hinv⟩ := CountCB.count_call_some_of_inv cb e h
    obtain ⟨cb', hrun, hinv'⟩ := ih cb1 hinv
    exact ⟨cb', by simp [CountCB.run, hcall, hrun], hinv'⟩

/-- A ThresholdBreaker call made in an invariant-respecting state passes its
asserts and preserves the invariant, provided no call made while `HalfOpen`
fails (the defective transition of circuit_breaker.rs is not exercised). -/
theorem CircuitBreaker.th_call_some_of_inv (cb : CircuitBreaker) (f : Bool)
    (h : ThInv cb) (hpok : cb.state = .HalfOpen → f = true) :
    ∃ r cb' inv, cb.call f = some (r, cb', inv) ∧ ThInv cb' := by
  obtain ⟨st, fc, ft, ha, ht⟩ := cb
  cases st with
  | Closed =>
    simp [ThInv] at h
    obtain ⟨hft, hht, hfc, hha⟩ := h
    subst hha
    cases f with
    | true =>
      exact ⟨.Succeeded, ⟨.Closed, fc, ft, 0, ht⟩, true,
        by simp [CircuitBreaker.call, hfc], by simp [ThInv]; omega⟩
    | false =>
      by_cases hreach : fc + 1 = ft
      · exact ⟨.Failed, ⟨.Open, fc + 1, ft, 0, ht⟩, true,
          by simp [CircuitBreaker.call, hfc, hreach], by simp [ThInv]; omega⟩
      · exact ⟨.Failed, ⟨.Closed, fc + 1, ft, 0, ht⟩, true,
          by simp [CircuitBreaker.call, hfc, hreach], by simp [ThInv]; omega⟩
  | Open =>
    simp [ThInv] at h
    obtain ⟨hft, hht, hfc, hha⟩ := h
    subst hfc
    by_cases hreach : ha + 1 = ht
    · exact ⟨.Rejected, ⟨.HalfOpen, fc, fc, 0, ht⟩, false,
        by simp [CircuitBreaker.call, hha, hreach], by simp [ThInv]; omega⟩
    · exact ⟨.Rejected, ⟨.Open, fc, fc, ha + 1, ht⟩, false,
        by simp [CircuitBreaker.call, hha, hreach], by simp [ThInv]; omega⟩
  | HalfOpen =>
    simp [ThInv] at h
    obtain ⟨hft, hht, hfc, hha⟩ := h
    subst hfc
    subst hha
    have hf : f = true := hpok rfl
    subst hf
    exact ⟨.Succeeded, ⟨.Closed, 0, fc, 0, ht⟩, true,
      by simp [CircuitBreaker.call, hht], by simp [ThInv]; omega⟩

/-- A ThresholdBreaker run from an invariant-respecting state along a trace
that never fails a `HalfOpen` call hits no assertion failure and preserves the
invariant. -/
theorem CircuitBreaker.th_run_some_of_inv (cb : CircuitBreaker) (evs : List Bool)
    (h : ThInv cb) (hok : cb.probes_ok evs = true) :
    ∃ cb', cb.run evs = some cb' ∧ ThInv cb' := by
  induction evs generalizing cb with
  | nil => exact ⟨cb, rfl, h⟩
  | cons e rest ih =>
    rw [CircuitBreaker.probes_ok, Bool.and_eq_true] at hok
    obtain ⟨hpe, hrest⟩ := hok
    have hpe' : cb.state = .HalfOpen → e = true := by
      intro hst
      cases e with
      | false => simp [hst] at hpe
      | true => rfl
    obtain ⟨r, cb1, inv, hcall, hinv⟩ := CircuitBreaker.th_call_some_of_inv cb e h hpe'
    rw [hcall] at hrest
    obtain ⟨cb', hrun, hinv'⟩ := ih cb1 hinv hrest
    exact ⟨cb', by simp [CircuitBreaker.run, hcall, hrun], hinv'⟩

/-- A TimeBreaker call made at clock reading `now` from an invariant-respecting
state (relative to an earlier reading `t ≤ now`) passes all its asserts and
preserves the invariant relative to `now`. -/
theorem TimeCB.time_call_some_of_inv (cb : TimeCB) (t now : Nat) (f : Bool)
    (h : TimeInv cb t) (hmono : t ≤ now) :
    ∃ r cb' inv, cb.call now f = some (r, cb', inv) ∧ TimeInv cb' now := by
  obtain ⟨st, ot, oa, fc, ft, p, pt⟩ := cb
  cases st with
  | Closed =>
    simp [TimeInv] at h
    obtain ⟨hot, hft, hpt, hfc, hpz, hoa⟩ := h
    subst hpz
    subst hoa
    cases f with
    | true =>
      exact ⟨.Succeeded, ⟨.Closed, ot, none, 0, ft, 0, pt⟩, true,
        by simp [TimeCB.call, hfc], by simp [TimeInv]; omega⟩
    | false =>
      by_cases hreach : fc + 1 = ft
      · exact ⟨.Failed, ⟨.Open, ot, some now, fc + 1, ft, 0, pt⟩, true,
          by simp [TimeCB.call, hfc, hreach], by simp [TimeInv]; omega⟩
      · exact ⟨.Failed, ⟨.Closed, ot, none, fc + 1, ft, 0, pt⟩, true,
          by simp [TimeCB.call, hfc, hreach], by simp [TimeInv]; omega⟩
  | Open =>
    simp [TimeInv] at h
    obtain ⟨hot, hft, hpt, hfc, hpz, s, hoa⟩ := h
    subst hfc
    subst hpz
    subst hoa
    by_cases htime : s + ot ≤ now
    · cases f with
      | true =>
        exact ⟨.Succeeded, ⟨.Closed, ot, none, 0, fc, 0, pt⟩, true,
          by simp [TimeCB.call, htime], by simp [TimeInv]; omega⟩
      | false =>
        by_cases hone : 0 + 1 = pt
        · exact ⟨.Failed, ⟨.Open, ot, some now, fc, fc, 0, pt⟩, true,
            by simp [TimeCB.call, htime, hone.symm],
            by simp [TimeInv]; omega⟩
        · exact ⟨.Failed, ⟨.HalfOpen, ot, some s, fc, fc, 0 + 1, pt⟩, true,
            by simp [TimeCB.call, htime, hone],
            by simp [TimeInv]; omega⟩
    · exact ⟨.Rejected, ⟨.Open, ot, some s, fc, fc, 0, pt⟩, false,
        by simp [TimeCB.call, htime], by simp [TimeInv]; omega⟩
  | HalfOpen =>
    simp [TimeInv] at h
    obtain ⟨hot, hft, hpt, hfc, hplt, s, hoa, hs⟩ := h
    subst hfc
    subst hoa
    have htime : s + ot ≤ now := le_trans hs hmono
    cases f with
    | true =>
      exact ⟨.Succeeded, ⟨.Closed, ot, none, 0, fc, 0, pt⟩, true,
        by simp [TimeCB.call, hplt, htime], by simp [TimeInv]; omega⟩
    | false =>
      by_cases hreach : p + 1 = pt
      · exact ⟨.Failed, ⟨.Open, ot, some now, fc, fc, 0, pt⟩, true,
          by simp [TimeCB.call, hplt, htime, hreach],
          by simp [TimeInv]; omega⟩
      · exact ⟨.Failed, ⟨.HalfOpen, ot, some s, fc, fc, p + 1, pt⟩, true,
          by simp [TimeCB.call, hplt, htime, hreach],
          by simp [TimeInv]; omega⟩

/-- A TimeBreaker run from an invariant-respecting state over a non-decreasing
clock trace hits no assertion failure and ends in an invariant-respecting
state relative to the final clock reading. -/
theorem TimeCB.time_run_some_of_inv (cb : TimeCB) (t : Nat) (evs : List (Nat × Bool))
    (h : TimeInv cb t) (hc : chainFrom t evs = true) :
    ∃ cb', cb.run evs = some cb' ∧ TimeInv cb' (lastNow t evs) := by
  induction evs generalizing cb t with
  | nil => exact ⟨cb, rfl, h⟩
  | cons e rest ih =>
    obtain ⟨n, b⟩ := e
    rw [chainFrom, Bool.and_eq_true, decide_eq_true_eq] at hc
    obtain ⟨hle, hch⟩ := hc
    obtain ⟨r, cb1, inv, hcall, hinv⟩ := TimeCB.time_call_some_of_inv cb t n b h hle
    obtain ⟨cb', hrun, hinv'⟩ := ih cb1 n hinv hch
    exact ⟨cb', by simp [TimeCB.run, hcall, hrun], by simpa [lastNow] using hinv'⟩

/-- C1, as stated, is false: for the ThresholdBreaker variant, a freshly
constructed instance (thresholds 1, 1) driven by the event sequence
fail, (rejected call), fail, (any call) aborts with an assertion failure on
the fourth call: the HalfOpen-failure transition resets `failure_count` to 0,
so the Open-branch assert `failure_count == failure_threshold` fails. -/
theorem C1_counterexample :
    CircuitBreaker.new 1 1 = some ⟨.Closed, 0, 1, 0, 1⟩ ∧
    CircuitBreaker.run ⟨.Closed, 0, 1, 0, 1⟩ [false, true, false, true] = none := by
  decide

/-- C1 (amended): for CountBreaker, from a freshly constructed instance, every
finite sequence of successful/failing operations keeps every §3 invariant and
never hits an assertion failure; for TimeBreaker the same holds for every
finite sequence of calls at non-decreasing clock readings; for
ThresholdBreaker it holds only for sequences in which no call made while
`HalfOpen` fails (otherwise the §4.3 defect breaks the Open-state
invariant). -/
theorem C1_amended :
    (∀ ft ht cb0, CountCB.new ft ht = some cb0 →
      ∀ evs : List Bool, ∃ cb', cb0.run evs = some cb' ∧ CountInv cb') ∧
    (∀ ot pt ft cb0, TimeCB.with_clock ot pt ft = some cb0 →
      ∀ (t0 : Nat) (evs : List (Nat × Bool)), chainFrom t0 evs = true →
        ∃ cb', cb0.run evs = some cb' ∧ TimeInv cb' (lastNow t0 evs)) ∧
    (∀ ft ht cb0, CircuitBreaker.new ft ht = some cb0 →
      ∀ evs : List Bool, cb0.probes_ok evs = true →
        ∃ cb', cb0.run evs = some cb' ∧ ThInv cb') := by
  refine ⟨?_, ?_, ?_⟩
  · intro ft ht cb0 hnew evs
    have h0 : CountInv cb0 := by
      unfold CountCB.new at hnew
      by_cases hpos : 0 < ft ∧ 0 < ht
      · rw [if_pos hpos] at hnew
        simp only [Option.some.injEq] at hnew
        subst hnew
        simp [CountInv]
        omega
      · rw [if_neg hpos] at hnew
        cases hnew
    exact CountCB.count_run_some_of_inv cb0 evs h0
  · intro ot pt ft cb0 hnew t0 evs hch
    have h0 : TimeInv cb0 t0 := by
      unfold TimeCB.with_clock at hnew
      by_cases hpos : 0 < ot ∧ 0 < pt ∧ 0 < ft
      · rw [if_pos hpos] at hnew
        simp only [Option.some.injEq] at hnew
        subst hnew
        simp [TimeInv]
        omega
      · rw [if_neg hpos] at hnew
        cases hnew
    exact TimeCB.time_run_some_of_inv cb0 t0 evs h0 hch
  · intro ft ht cb0 hnew evs hok
    have h0 : ThInv cb0 := by
      unfold CircuitBreaker.new at hnew
      by_cases hpos : 0 < ft ∧ 0 < ht
      · rw [if_pos hpos] at hnew
        simp only [Option.some.injEq] at hnew
        subst hnew
        simp [ThInv]
        omega
      · rw [if_neg hpos] at hnew
        cases hnew
    exact CircuitBreaker.th_run_some_of_inv cb0 evs h0 hok

/-- Witness for C1 (amended) at concrete inputs: CountBreaker (2, 1) over
fail, succeed, fail, fail; TimeBreaker (timeout 1, probes 1, failures 2) over
a four-event non-decreasing clock trace; ThresholdBreaker (2, 1) over a trace
whose HalfOpen call succeeds. -/
theorem C1_amended_witness :
    (∃ cb', CountCB.run ⟨.Closed, 0, 2, 0, 1⟩ [false, true, false, false] =
        some cb' ∧ CountInv cb') ∧
    (∃ cb', TimeCB.run ⟨.Closed, 1, none, 0, 2, 0, 1⟩
        [(0, false), (0, false), (1, false), (2, true)] = some cb' ∧
        TimeInv cb' (lastNow 0 [(0, false), (0, false), (1, false), (2, true)])) ∧
    (∃ cb', CircuitBreaker.run ⟨.Closed, 0, 2, 0, 1⟩ [false, false, true, true] =
        some cb' ∧ ThInv cb') :=
  ⟨C1_amended.1 2 1 ⟨.Closed, 0, 2, 0, 1⟩ (by decide) [false, true, false, false],
   C1_amended.2.1 1 1 2 ⟨.Closed, 1, none, 0, 2, 0, 1⟩ (by decide) 0
     [(0, false), (0, false), (1, false), (2, true)] (by decide),
   C1_amended.2.2 2 1 ⟨.Closed, 0, 2, 0, 1⟩ (by decide) [false, false, true, true]
     (by decide)⟩

/-- C2: for a TimeBreaker in an Open state satisfying the Open-branch asserts,
a call before `open_at + open_timeout` returns `Rejected` without invoking the
operation and changes nothing; a call at or after the timeout invokes the
operation within that same call and resolves: to Closed with `Succeeded` on
success; on failure, it re-opens with a fresh `open_at = now` when the probes
threshold is 1, and otherwise remains HalfOpen with the probe counter at 1. -/
theorem C2 (cb : TimeCB) (s now : Nat) (f : Bool)
    (hs : cb.state = .Open)
    (hfc : cb.closed_failures = cb.closed_failures_threshold)
    (hpz : cb.half_open_probes = 0)
    (hoa : cb.open_at = some s)
    (hpt : 0 < cb.half_open_probes_threshold) :
    (now < s + cb.open_timeout → cb.call now f = some (.Rejected, cb, false)) ∧
    (s + cb.open_timeout ≤ now →
      (f = true →
        cb.call now f = some (.Succeeded,
          { cb with state := .Closed, closed_failures := 0,
                    open_at := none, half_open_probes := 0 }, true)) ∧
      (f = false → cb.half_open_probes_threshold = 1 →
        cb.call now f = some (.Failed,
          { cb with state := .Open, half_open_probes := 0,
                    open_at := some now }, true)) ∧
      (f = false → 1 < cb.half_open_probes_threshold →
        cb.call now f = some (.Failed,
          { cb with state := .HalfOpen, half_open_probes := 1 }, true))) := by
  obtain ⟨st, ot, oa, fc, ft, p, pt⟩ := cb
  dsimp only at hs hfc hpz hoa hpt ⊢
  subst hs
  subst hfc
  subst hpz
  subst hoa
  refine ⟨fun hlt => ?_, fun hle => ⟨fun hf => ?_, fun hf hone => ?_, fun hf hone => ?_⟩⟩
  · have hn : ¬(s + ot ≤ now) := by omega
    simp [TimeCB.call, hn]
  · subst hf
    simp [TimeCB.call, hle]
  · subst hf
    subst hone
    simp [TimeCB.call, hle]
  · subst hf
    have hne : ¬(0 + 1 = pt) := by omega
    simp [TimeCB.call, hle, hne]

/-- Witness for C2 at a concrete Open state (timeout 3, opened at 5,
probes threshold 2): a call at time 7 is rejected unchanged, and a failing
call at time 8 moves to HalfOpen with one probe recorded. -/
theorem C2_witness :
    TimeCB.call ⟨.Open, 3, some 5, 2, 2, 0, 2⟩ 7 true =
      some (.Rejected, ⟨.Open, 3, some 5, 2, 2, 0, 2⟩, false) ∧
    TimeCB.call ⟨.Open, 3, some 5, 2, 2, 0, 2⟩ 8 false =
      some (.Failed, ⟨.HalfOpen, 3, some 5, 2, 2, 1, 2⟩, true) :=
  ⟨(C2 ⟨.Open, 3, some 5, 2, 2, 0, 2⟩ 5 7 true rfl rfl rfl rfl (by decide)).1
      (by decide),
   ((C2 ⟨.Open, 3, some 5, 2, 2, 0, 2⟩ 5 8 false rfl rfl rfl rfl (by decide)).2
      (by decide)).2.2 rfl (by decide)⟩

/-- C3: a ThresholdBreaker HalfOpen state whose call fails transitions to Open
while also resetting `failure_count` and `half_open_attempts` to 0; if the
failure threshold is positive, every subsequent call on the resulting state
aborts with an assertion failure (the Open-branch assert
`failure_count == failure_threshold` is violated). -/
theorem C3 (cb : CircuitBreaker)
    (hs : cb.state = .HalfOpen)
    (hfc : cb.failure_count = cb.failure_threshold)
    (hha : cb.half_open_attempts < cb.half_open_threshold)
    (hft : 0 < cb.failure_threshold) :
    ∃ cb', cb.call false = some (.Failed, cb', true) ∧
      cb'.state = .Open ∧ cb'.failure_count = 0 ∧ cb'.half_open_attempts = 0 ∧
      ∀ f, cb'.call f = none := by
  obtain ⟨st, fc, ft, ha, ht⟩ := cb
  dsimp only at hs hfc hha hft
  subst hs
  subst hfc
  refine ⟨⟨.Open, 0, fc, 0, ht⟩, ?_, rfl, rfl, rfl, ?_⟩
  · simp [CircuitBreaker.call, hha]
  · intro f
    simp [CircuitBreaker.call]
    omega

/-- Witness for C3: the failing state is reachable from a fresh
ThresholdBreaker (2, 1) by two failures and one rejected call; the HalfOpen
failure then re-opens with a zeroed failure counter, after which every call
aborts. -/
theorem C3_witness :
    CircuitBreaker.run ⟨.Closed, 0, 2, 0, 1⟩ [false, false, true] =
      some ⟨.HalfOpen, 2, 2, 0, 1⟩ ∧
    ∃ cb', CircuitBreaker.call ⟨.HalfOpen, 2, 2, 0, 1⟩ false =
        some (.Failed, cb', true) ∧
      cb'.state = .Open ∧ cb'.failure_count = 0 ∧ cb'.half_open_attempts = 0 ∧
      ∀ f, cb'.call f = none :=
  ⟨by decide, C3 ⟨.HalfOpen, 2, 2, 0, 1⟩ rfl rfl (by decide) (by decide)⟩

/-- C4: a CountBreaker HalfOpen state whose call fails resets
`half_open_attempts` to 0, leaves `closed_failures` unchanged (still equal to
the threshold), moves to Open and returns `Failed`; from the re-opened state,
every later run keeps the Open-state invariant
`closed_failures == closed_failures_threshold`. -/
theorem C4 (cb : CountCB)
    (hs : cb.state = .HalfOpen)
    (hfc : cb.closed_failures = cb.closed_failures_threshold)
    (hha : cb.half_open_attempts < cb.half_open_threshold)
    (hft : 0 < cb.closed_failures_threshold) :
    cb.call false = some (.Failed,
      { cb with state := .Open, half_open_attempts := 0 }, true) ∧
    ({ cb with state := .Open, half_open_attempts := 0 } : CountCB).closed_failures
      = cb.closed_failures_threshold ∧
    (∀ evs : List Bool, ∃ cb',
      CountCB.run { cb with state := .Open, half_open_attempts := 0 } evs =
        some cb' ∧
      (cb'.state = .Open → cb'.closed_failures = cb'.closed_failures_threshold)) := by
  obtain ⟨st, fc, ft, ha, ht⟩ := cb
  dsimp only at hs hfc hha hft ⊢
  subst hs
  subst hfc
  refine ⟨?_, rfl, ?_⟩
  · simp [CountCB.call, hha]
  · intro evs
    have hinv : CountInv ⟨.Open, fc, fc, 0, ht⟩ := by
      simp [CountInv]
      omega
    obtain ⟨cb', hrun, hinv'⟩ := CountCB.count_run_some_of_inv ⟨.Open, fc, fc, 0, ht⟩ evs hinv
    exact ⟨cb', hrun, fun hOpen => (hinv'.2.2.2.1 hOpen).1⟩

/-- Witness for C4 at a concrete HalfOpen state of a CountBreaker (2, 1): the
failed probe re-opens with the failure counter still at the threshold, and a
subsequent open/half-open cycle preserves the Open-state invariant. -/
theorem C4_witness :
    CountCB.call ⟨.HalfOpen, 2, 2, 0, 1⟩ false =
      some (.Failed, ⟨.Open, 2, 2, 0, 1⟩, true) ∧
    (⟨.Open, 2, 2, 0, 1⟩ : CountCB).closed_failures = 2 ∧
    (∃ cb', CountCB.run ⟨.Open, 2, 2, 0, 1⟩ [true, false, true, false] = some cb' ∧
      (cb'.state = .Open → cb'.closed_failures = cb'.closed_failures_threshold)) :=
  ⟨(C4 ⟨.HalfOpen, 2, 2, 0, 1⟩ rfl rfl (by decide) (by decide)).1,
   (C4 ⟨.HalfOpen, 2, 2, 0, 1⟩ rfl rfl (by decide) (by decide)).2.1,
   (C4 ⟨.HalfOpen, 2, 2, 0, 1⟩ rfl rfl (by decide) (by decide)).2.2
     [true, false, true, false]⟩

/-- C5: a ThresholdBreaker call made while Closed whose operation succeeds
returns `Succeeded` and leaves the breaker entirely unchanged — in particular
the accumulated `failure_count` is not cleared and the state stays Closed. -/
theorem C5 (cb : CircuitBreaker)
    (hs : cb.state = .Closed)
    (hfc : cb.failure_count < cb.failure_threshold)
    (hha : cb.half_open_attempts = 0) :
    cb.call true = some (.Succeeded, cb, true) := by
  obtain ⟨st, fc, ft, ha, ht⟩ := cb
  dsimp only at hs hfc hha
  subst hs
  subst hha
  simp [CircuitBreaker.call, hfc]

/-- Witness for C5: a Closed ThresholdBreaker with one accumulated failure out
of three keeps that failure across a successful call. -/
theorem C5_witness :
    CircuitBreaker.call ⟨.Closed, 1, 3, 0, 2⟩ true =
      some (.Succeeded, ⟨.Closed, 1, 3, 0, 2⟩, true) :=
  C5 ⟨.Closed, 1, 3, 0, 2⟩ rfl (by decide) rfl


/-- Running a CountBreaker over an appended trace runs the two parts in
sequence. -/
theorem CountCB.run_append (cb : CountCB) (l1 l2 : List Bool) :
    cb.run (l1 ++ l2) = (cb.run l1).bind (fun c => c.run l2) := by
  induction l1 generalizing cb with
  | nil => simp [CountCB.run]
  | cons e rest ih =>
    simp only [List.cons_append, CountCB.run]
    cases hcall : cb.call e with
    | none => simp
    | some x => exact ih x.2.1

/-- A run of `k` consecutive failures from a Closed CountBreaker state with
`c` accumulated failures, staying strictly below the threshold, stays Closed
and accumulates `c + k` failures. -/
theorem CountCB.run_replicate_false (ft ht c k : Nat) (h : c + k < ft) :
    CountCB.run ⟨.Closed, c, ft, 0, ht⟩ (List.replicate k false) =
      some ⟨.Closed, c + k, ft, 0, ht⟩ := by
  induction k generalizing c with
  | zero => simp [CountCB.run]
  | succ k ih =>
    have h1 : c < ft := by omega
    have h2 : ¬(c + 1 = ft) := by omega
    have hcall : CountCB.call ⟨.Closed, c, ft, 0, ht⟩ false =
        some (.Failed, ⟨.Closed, c + 1, ft, 0, ht⟩, true) := by
      simp [CountCB.call, h1, h2]
    have hrest := ih (c + 1) (by omega)
    have harith : c + 1 + k = c + (k + 1) := by omega
    rw [harith] at hrest
    simp only [List.replicate_succ, CountCB.run, hcall]
    exact hrest

/-- A successful call on a Closed CountBreaker state resets the failure
counter to zero. -/
theorem CountCB.call_closed_true (ft ht c : Nat) (h : c < ft) :
    CountCB.call ⟨.Closed, c, ft, 0, ht⟩ true =
      some (.Succeeded, ⟨.Closed, 0, ft, 0, ht⟩, true) := by
  simp [CountCB.call, h]

/-- C6: for a CountBreaker constructed with failure threshold `N` (and any
valid half-open threshold): any successful Closed-state call resets the
failure counter, so every prefix of the trace (N-1 failures, one success,
N-1 failures) leaves the breaker Closed — it never opens — whereas `N`
consecutive failures drive the state to Open. -/
theorem C6 (N hthr : Nat) (cb0 : CountCB) (hnew : CountCB.new N hthr = some cb0) :
    (∀ l1 l2 : List Bool,
      List.replicate (N - 1) false ++ true :: List.replicate (N - 1) false =
        l1 ++ l2 →
      ∃ cb', cb0.run l1 = some cb' ∧ cb'.state = .Closed) ∧
    (∃ cb', cb0.run (List.replicate N false) = some cb' ∧ cb'.state = .Open) := by
  have hpos : 0 < N ∧ 0 < hthr ∧ cb0 = ⟨.Closed, 0, N, 0, hthr⟩ := by
    unfold CountCB.new at hnew
    by_cases hp : 0 < N ∧ 0 < hthr
    · rw [if_pos hp] at hnew
      simp only [Option.some.injEq] at hnew
      exact ⟨hp.1, hp.2, hnew.symm⟩
    · rw [if_neg hp] at hnew
      cases hnew
  obtain ⟨hN, hh, hcb0⟩ := hpos
  subst hcb0
  obtain ⟨M, rfl⟩ : ∃ M, N = M + 1 := ⟨N - 1, by omega⟩
  have hM : M + 1 - 1 = M := by omega
  rw [hM]
  constructor
  · intro l1 l2 hsplit
    rw [List.append_eq_append_iff] at hsplit
    rcases hsplit with ⟨a', h1, h2⟩ | ⟨c', hc1, _⟩
    · -- the first replicate block is a prefix of l1
      subst h1
      cases a' with
      | nil =>
        rw [List.append_nil]
        exact ⟨⟨.Closed, 0 + M, M + 1, 0, hthr⟩,
          CountCB.run_replicate_false (M + 1) hthr 0 M (by omega), rfl⟩
      | cons x a'' =>
        rw [List.cons_append] at h2
        injection h2 with hx hA
        subst hx
        have ha'' : a'' = List.replicate a''.length false := by
          rw [List.eq_replicate_iff]
          refine ⟨rfl, fun b hb => ?_⟩
          have hmem : b ∈ List.replicate M false :=
            hA.symm ▸ List.mem_append_left l2 hb
          exact List.eq_of_mem_replicate hmem
        have hlen : a''.length ≤ M := by
          have := congrArg List.length hA
          simp at this
          omega
        rw [CountCB.run_append,
          CountCB.run_replicate_false (M + 1) hthr 0 M (by omega)]
        simp only [Option.some_bind, CountCB.run,
          CountCB.call_closed_true (M + 1) hthr (0 + M) (by omega)]
        rw [ha'', CountCB.run_replicate_false (M + 1) hthr 0 a''.length (by omega)]
        exact ⟨⟨.Closed, 0 + a''.length, M + 1, 0, hthr⟩, rfl, rfl⟩
    · -- l1 is a prefix of the first replicate block
      have hl1 : l1 = List.replicate l1.length false := by
        rw [List.eq_replicate_iff]
        refine ⟨rfl, fun b hb => ?_⟩
        have hmem : b ∈ List.replicate M false :=
          hc1.symm ▸ List.mem_append_left c' hb
        exact List.eq_of_mem_replicate hmem
      have hlen : l1.length ≤ M := by
        have := congrArg List.length hc1
        simp at this
        omega
      rw [hl1, CountCB.run_replicate_false (M + 1) hthr 0 l1.length (by omega)]
      exact ⟨⟨.Closed, 0 + l1.length, M + 1, 0, hthr⟩, rfl, rfl⟩
  · rw [List.replicate_succ', CountCB.run_append,
      CountCB.run_replicate_false (M + 1) hthr 0 M (by omega)]
    have hcall : CountCB.call ⟨.Closed, 0 + M, M + 1, 0, hthr⟩ false =
        some (.Failed, ⟨.Open, M + 1, M + 1, 0, hthr⟩, true) := by
      simp [CountCB.call]
    simp only [Option.some_bind, CountCB.run, hcall]
    exact ⟨⟨.Open, M + 1, M + 1, 0, hthr⟩, rfl, rfl⟩

/-- Witness for C6 at N = 3: the full trace (2 failures, success, 2 failures)
ends Closed, and 3 consecutive failures end Open. -/
theorem C6_witness :
    (∃ cb', CountCB.run ⟨.Closed, 0, 3, 0, 1⟩ [false, false, true, false, false] =
        some cb' ∧ cb'.state = .Closed) ∧
    (∃ cb', CountCB.run ⟨.Closed, 0, 3, 0, 1⟩ (List.replicate 3 false) =
        some cb' ∧ cb'.state = .Open) :=
  ⟨(C6 3 1 ⟨.Closed, 0, 3, 0, 1⟩ (by decide)).1
      [false, false, true, false, false] [] (by decide),
   (C6 3 1 ⟨.Closed, 0, 3, 0, 1⟩ (by decide)).2⟩

/-- C7: for ThresholdBreaker and CountBreaker in an Open state, every call is
rejected without invoking the operation, the attempts counter is incremented,
and the state moves to HalfOpen exactly when the incremented counter equals
the half-open threshold (resetting the counter), otherwise stays Open; with
thresholds (2, 1), the third call from fresh — the first while Open — moves
Open to HalfOpen and returns `Rejected`. -/
theorem C7 :
    (∀ cb : CircuitBreaker, cb.state = .Open →
      cb.failure_count = cb.failure_threshold →
      cb.half_open_attempts < cb.half_open_threshold →
      ∀ f : Bool,
        (cb.half_open_attempts + 1 = cb.half_open_threshold →
          cb.call f = some (.Rejected,
            { cb with state := .HalfOpen, half_open_attempts := 0 }, false)) ∧
        (cb.half_open_attempts + 1 ≠ cb.half_open_threshold →
          cb.call f = some (.Rejected,
            { cb with half_open_attempts := cb.half_open_attempts + 1 }, false))) ∧
    (∀ cb : CountCB, cb.state = .Open →
      cb.closed_failures = cb.closed_failures_threshold →
      cb.half_open_attempts < cb.half_open_threshold →
      ∀ f : Bool,
        (cb.half_open_attempts + 1 = cb.half_open_threshold →
          cb.call f = some (.Rejected,
            { cb with state := .HalfOpen, half_open_attempts := 0 }, false)) ∧
        (cb.half_open_attempts + 1 ≠ cb.half_open_threshold →
          cb.call f = some (.Rejected,
            { cb with half_open_attempts := cb.half_open_attempts + 1 }, false))) ∧
    (∀ f : Bool,
      CircuitBreaker.call ⟨.Closed, 0, 2, 0, 1⟩ false =
        some (.Failed, ⟨.Closed, 1, 2, 0, 1⟩, true) ∧
      CircuitBreaker.call ⟨.Closed, 1, 2, 0, 1⟩ false =
        some (.Failed, ⟨.Open, 2, 2, 0, 1⟩, true) ∧
      CircuitBreaker.call ⟨.Open, 2, 2, 0, 1⟩ f =
        some (.Rejected, ⟨.HalfOpen, 2, 2, 0, 1⟩, false) ∧
      CountCB.call ⟨.Closed, 0, 2, 0, 1⟩ false =
        some (.Failed, ⟨.Closed, 1, 2, 0, 1⟩, true) ∧
      CountCB.call ⟨.Closed, 1, 2, 0, 1⟩ false =
        some (.Failed, ⟨.Open, 2, 2, 0, 1⟩, true) ∧
      CountCB.call ⟨.Open, 2, 2, 0, 1⟩ f =
        some (.Rejected, ⟨.HalfOpen, 2, 2, 0, 1⟩, false)) := by
  refine ⟨?_, ?_, by intro f; cases f <;> decide⟩
  · intro cb hs hfc hha f
    obtain ⟨st, fc, ft, ha, ht⟩ := cb
    dsimp only at hs hfc hha ⊢
    subst hs
    subst hfc
    constructor
    · intro hr
      simp [CircuitBreaker.call, hha, hr]
    · intro hr
      simp [CircuitBreaker.call, hha, hr]
  · intro cb hs hfc hha f
    obtain ⟨st, fc, ft, ha, ht⟩ := cb
    dsimp only at hs hfc hha ⊢
    subst hs
    subst hfc
    constructor
    · intro hr
      simp [CountCB.call, hha, hr]
    · intro hr
      simp [CountCB.call, hha, hr]

/-- Witness for C7 at an Open ThresholdBreaker (threshold 3) with one attempt
already made and half-open threshold 2: the next call is rejected and the
state moves to HalfOpen with the counter reset. -/
theorem C7_witness :
    CircuitBreaker.call ⟨.Open, 3, 3, 1, 2⟩ true =
      some (.Rejected, ⟨.HalfOpen, 3, 3, 0, 2⟩, false) ∧
    CountCB.call ⟨.Open, 3, 3, 0, 2⟩ true =
      some (.Rejected, ⟨.Open, 3, 3, 1, 2⟩, false) :=
  ⟨((C7.1 ⟨.Open, 3, 3, 1, 2⟩ rfl rfl (by decide) true).1 (by decide)),
   ((C7.2.1 ⟨.Open, 3, 3, 0, 2⟩ rfl rfl (by decide) true).2 (by decide))⟩

/-- In any non-aborting ThresholdBreaker call, the operation was invoked
exactly when the returned outcome is not `Rejected`. -/
theorem CircuitBreaker.th_call_invoked_iff (cb : CircuitBreaker) (f : Bool)
    (r : CircuitResult) (cb' : CircuitBreaker) (inv : Bool)
    (h : cb.call f = some (r, cb', inv)) : inv = true ↔ r ≠ .Rejected := by
  obtain ⟨st, fc, ft, ha, ht⟩ := cb
  cases st <;> cases f <;>
    simp only [CircuitBreaker.call] at h <;>
    first
    | exact Option.noConfusion h
    | (split_ifs at h <;>
        first
        | exact Option.noConfusion h
        | (simp only [Option.some.injEq, Prod.mk.injEq] at h
           obtain ⟨hr, hcb, hi⟩ := h
           subst hr
           subst hi
           decide))

/-- A ThresholdBreaker call that returns `Rejected` did not consult the
operation: the call result is the same for any operation outcome. -/
theorem CircuitBreaker.th_call_rejected_indep (cb : CircuitBreaker) (f1 f2 : Bool)
    (cb' : CircuitBreaker) (inv : Bool)
    (h : cb.call f1 = some (.Rejected, cb', inv)) : cb.call f2 = cb.call f1 := by
  obtain ⟨st, fc, ft, ha, ht⟩ := cb
  cases st <;> cases f1 <;> cases f2 <;>
    simp only [CircuitBreaker.call] at h ⊢ <;>
    first
    | exact Option.noConfusion h
    | (split_ifs at h ⊢ <;>
        first
        | rfl
        | exact Option.noConfusion h
        | (simp at h))

/-- In any non-aborting CountBreaker call, the operation was invoked exactly
when the returned outcome is not `Rejected`. -/
theorem CountCB.count_call_invoked_iff (cb : CountCB) (f : Bool)
    (r : CircuitResult) (cb' : CountCB) (inv : Bool)
    (h : cb.call f = some (r, cb', inv)) : inv = true ↔ r ≠ .Rejected := by
  obtain ⟨st, fc, ft, ha, ht⟩ := cb
  cases st <;> cases f <;>
    simp only [CountCB.call] at h <;>
    first
    | exact Option.noConfusion h
    | (split_ifs at h <;>
        first
        | exact Option.noConfusion h
        | (simp only [Option.some.injEq, Prod.mk.injEq] at h
           obtain ⟨hr, hcb, hi⟩ := h
           subst hr
           subst hi
           decide))

/-- A CountBreaker call that returns `Rejected` did not consult the
operation: the call result is the same for any operation outcome. -/
theorem CountCB.count_call_rejected_indep (cb : CountCB) (f1 f2 : Bool)
    (cb' : CountCB) (inv : Bool)
    (h : cb.call f1 = some (.Rejected, cb', inv)) : cb.call f2 = cb.call f1 := by
  obtain ⟨st, fc, ft, ha, ht⟩ := cb
  cases st <;> cases f1 <;> cases f2 <;>
    simp only [CountCB.call] at h ⊢ <;>
    first
    | exact Option.noConfusion h
    | (split_ifs at h ⊢ <;>
        first
        | rfl
        | exact Option.noConfusion h
        | (simp at h))

/-- In any non-aborting TimeBreaker call, the operation was invoked exactly
when the returned outcome is not `Rejected`. -/
theorem TimeCB.time_call_invoked_iff (cb : TimeCB) (now : Nat) (f : Bool)
    (r : CircuitResult) (cb' : TimeCB) (inv : Bool)
    (h : cb.call now f = some (r, cb', inv)) : inv = true ↔ r ≠ .Rejected := by
  obtain ⟨st, ot, oa, fc, ft, p, pt⟩ := cb
  cases st <;> cases oa <;> cases f <;>
    simp only [TimeCB.call] at h <;>
    first
    | exact Option.noConfusion h
    | (split_ifs at h <;>
        first
        | exact Option.noConfusion h
        | (simp only [Option.some.injEq, Prod.mk.injEq] at h
           obtain ⟨hr, hcb, hi⟩ := h
           subst hr
           subst hi
           decide))

/-- A TimeBreaker call that returns `Rejected` did not consult the
operation: the call result is the same for any operation outcome. -/
theorem TimeCB.time_call_rejected_indep (cb : TimeCB) (now : Nat) (f1 f2 : Bool)
    (cb' : TimeCB) (inv : Bool)
    (h : cb.call now f1 = some (.Rejected, cb', inv)) :
    cb.call now f2 = cb.call now f1 := by
  obtain ⟨st, ot, oa, fc, ft, p, pt⟩ := cb
  cases st <;> cases oa <;> cases f1 <;> cases f2 <;>
    simp only [TimeCB.call] at h ⊢ <;>
    first
    | exact Option.noConfusion h
    | (split_ifs at h ⊢ <;>
        first
        | rfl
        | exact Option.noConfusion h
        | (simp at h))

/-- C8: for every breaker variant, a (non-aborting) call reports the
operation as invoked exactly when its outcome is not `Rejected`, and a
`Rejected` call is independent of the operation's outcome (the operation was
never run). The embedding consumes a single operation result per call,
mirroring the `FnOnce` operation, so the operation is invoked at most once. -/
theorem C8 :
    (∀ (cb : CircuitBreaker) (f : Bool) r cb' inv,
      cb.call f = some (r, cb', inv) → (inv = true ↔ r ≠ .Rejected)) ∧
    (∀ (cb : CircuitBreaker) (f1 f2 : Bool) cb' inv,
      cb.call f1 = some (.Rejected, cb', inv) → cb.call f2 = cb.call f1) ∧
    (∀ (cb : CountCB) (f : Bool) r cb' inv,
      cb.call f = some (r, cb', inv) → (inv = true ↔ r ≠ .Rejected)) ∧
    (∀ (cb : CountCB) (f1 f2 : Bool) cb' inv,
      cb.call f1 = some (.Rejected, cb', inv) → cb.call f2 = cb.call f1) ∧
    (∀ (cb : TimeCB) (now : Nat) (f : Bool) r cb' inv,
      cb.call now f = some (r, cb', inv) → (inv = true ↔ r ≠ .Rejected)) ∧
    (∀ (cb : TimeCB) (now : Nat) (f1 f2 : Bool) cb' inv,
      cb.call now f1 = some (.Rejected, cb', inv) →
        cb.call now f2 = cb.call now f1) :=
  ⟨CircuitBreaker.th_call_invoked_iff, CircuitBreaker.th_call_rejected_indep,
   CountCB.count_call_invoked_iff, CountCB.count_call_rejected_indep,
   TimeCB.time_call_invoked_iff, TimeCB.time_call_rejected_indep⟩

/-- Witness for C8: a rejected Open-state ThresholdBreaker call reports the
operation as not invoked, and a rejected Open-state TimeBreaker call (before
the timeout) gives the same result whatever the operation would return. -/
theorem C8_witness :
    ((false = true) ↔ ((CircuitResult.Rejected : CircuitResult) ≠ .Rejected)) ∧
    TimeCB.call ⟨.Open, 3, some 5, 2, 2, 0, 2⟩ 6 false =
      TimeCB.call ⟨.Open, 3, some 5, 2, 2, 0, 2⟩ 6 true :=
  ⟨C8.1 ⟨.Open, 1, 1, 0, 2⟩ true .Rejected ⟨.Open, 1, 1, 1, 2⟩ false (by decide),
   C8.2.2.2.2.2 ⟨.Open, 3, some 5, 2, 2, 0, 2⟩ 6 true false
     ⟨.Open, 3, some 5, 2, 2, 0, 2⟩ false (by decide)⟩

/-- C9: for a TimeBreaker with probes threshold 2, from an Open state whose
timeout has elapsed by `n1`: the first failing probe leaves the breaker
HalfOpen with one probe recorded; a second failing probe at `n2 ≥ n1` reaches
the threshold, re-opens the breaker, resets the probe counter to 0 and records
the fresh open timestamp `n2`. -/
theorem C9 (cb : TimeCB) (s n1 n2 : Nat)
    (hs : cb.state = .Open)
    (hth : cb.half_open_probes_threshold = 2)
    (hfc : cb.closed_failures = cb.closed_failures_threshold)
    (hpz : cb.half_open_probes = 0)
    (hoa : cb.open_at = some s)
    (he : s + cb.open_timeout ≤ n1)
    (hn : n1 ≤ n2) :
    ∃ cb1, cb.call n1 false = some (.Failed, cb1, true) ∧
      cb1.state = .HalfOpen ∧ cb1.half_open_probes = 1 ∧
      ∃ cb2, cb1.call n2 false = some (.Failed, cb2, true) ∧
        cb2.state = .Open ∧ cb2.half_open_probes = 0 ∧ cb2.open_at = some n2 := by
  obtain ⟨st, ot, oa, fc, ft, p, pt⟩ := cb
  dsimp only at hs hth hfc hpz hoa he ⊢
  subst hs
  subst hth
  subst hfc
  subst hpz
  subst hoa
  have he2 : s + ot ≤ n2 := by omega
  refine ⟨⟨.HalfOpen, ot, some s, fc, fc, 1, 2⟩, ?_, rfl, rfl,
    ⟨.Open, ot, some n2, fc, fc, 0, 2⟩, ?_, rfl, rfl, rfl⟩
  · simp [TimeCB.call, he]
  · simp [TimeCB.call, he2]

/-- Witness for C9 at a concrete Open TimeBreaker (timeout 2, opened at 3,
probes threshold 2), probing at times 5 and 6. -/
theorem C9_witness :
    ∃ cb1, TimeCB.call ⟨.Open, 2, some 3, 1, 1, 0, 2⟩ 5 false =
        some (.Failed, cb1, true) ∧
      cb1.state = .HalfOpen ∧ cb1.half_open_probes = 1 ∧
      ∃ cb2, cb1.call 6 false = some (.Failed, cb2, true) ∧
        cb2.state = .Open ∧ cb2.half_open_probes = 0 ∧ cb2.open_at = some 6 :=
  C9 ⟨.Open, 2, some 3, 1, 1, 0, 2⟩ 3 5 6 rfl rfl rfl rfl rfl (by decide) (by decide)

/-- C10: for each breaker variant, construction with a zero failure threshold,
zero half-open (cooldown/probes) threshold or — for TimeBreaker — a zero open
timeout panics (yields no instance); every successful construction starts
Closed with all counters zero (and, for TimeBreaker, no open timestamp), and
a first successful call returns `Succeeded` with the state still Closed. -/
theorem C10 :
    (∀ ht, CircuitBreaker.new 0 ht = none) ∧
    (∀ ft, CircuitBreaker.new ft 0 = none) ∧
    (∀ ht, CountCB.new 0 ht = none) ∧
    (∀ ft, CountCB.new ft 0 = none) ∧
    (∀ pt ft, TimeCB.with_clock 0 pt ft = none) ∧
    (∀ ot ft, TimeCB.with_clock ot 0 ft = none) ∧
    (∀ ot pt, TimeCB.with_clock ot pt 0 = none) ∧
    (∀ ft ht cb, CircuitBreaker.new ft ht = some cb →
      cb.state = .Closed ∧ cb.failure_count = 0 ∧ cb.half_open_attempts = 0 ∧
      cb.call true = some (.Succeeded, cb, true)) ∧
    (∀ ft ht cb, CountCB.new ft ht = some cb →
      cb.state = .Closed ∧ cb.closed_failures = 0 ∧ cb.half_open_attempts = 0 ∧
      ∃ cb', cb.call true = some (.Succeeded, cb', true) ∧ cb'.state = .Closed) ∧
    (∀ ot pt ft cb, TimeCB.with_clock ot pt ft = some cb →
      cb.state = .Closed ∧ cb.closed_failures = 0 ∧ cb.half_open_probes = 0 ∧
      cb.open_at = none ∧
      ∀ now, ∃ cb', cb.call now true = some (.Succeeded, cb', true) ∧
        cb'.state = .Closed) := by
  refine ⟨?_, ?_, ?_, ?_, ?_, ?_, ?_, ?_, ?_, ?_⟩
  · intro ht
    simp [CircuitBreaker.new]
  · intro ft
    simp [CircuitBreaker.new]
  · intro ht
    simp [CountCB.new]
  · intro ft
    simp [CountCB.new]
  · intro pt ft
    simp [TimeCB.with_clock]
  · intro ot ft
    simp [TimeCB.with_clock]
  · intro ot pt
    simp [TimeCB.with_clock]
  · intro ft ht cb hnew
    unfold CircuitBreaker.new at hnew
    by_cases hp : 0 < ft ∧ 0 < ht
    · rw [if_pos hp] at hnew
      simp only [Option.some.injEq] at hnew
      subst hnew
      exact ⟨rfl, rfl, rfl, by simp [CircuitBreaker.call, hp.1]⟩
    · rw [if_neg hp] at hnew
      cases hnew
  · intro ft ht cb hnew
    unfold CountCB.new at hnew
    by_cases hp : 0 < ft ∧ 0 < ht
    · rw [if_pos hp] at hnew
      simp only [Option.some.injEq] at hnew
      subst hnew
      exact ⟨rfl, rfl, rfl, ⟨.Closed, 0, ft, 0, ht⟩,
        by simp [CountCB.call, hp.1], rfl⟩
    · rw [if_neg hp] at hnew
      cases hnew
  · intro ot pt ft cb hnew
    unfold TimeCB.with_clock at hnew
    by_cases hp : 0 < ot ∧ 0 < pt ∧ 0 < ft
    · rw [if_pos hp] at hnew
      simp only [Option.some.injEq] at hnew
      subst hnew
      exact ⟨rfl, rfl, rfl, rfl, fun now => ⟨⟨.Closed, ot, none, 0, ft, 0, pt⟩,
        by simp [TimeCB.call, hp.2.2], rfl⟩⟩
    · rw [if_neg hp] at hnew
      cases hnew

/-- Witness for C10: the positive-construction clauses applied to concrete
valid constructions; the zero-threshold clauses at concrete arguments. -/
theorem C10_witness :
    CircuitBreaker.new 0 5 = none ∧
    TimeCB.with_clock 7 4 0 = none ∧
    ((⟨.Closed, 0, 2, 0, 1⟩ : CircuitBreaker).state = .Closed ∧
      (⟨.Closed, 0, 2, 0, 1⟩ : CircuitBreaker).failure_count = 0 ∧
      (⟨.Closed, 0, 2, 0, 1⟩ : CircuitBreaker).half_open_attempts = 0 ∧
      CircuitBreaker.call ⟨.Closed, 0, 2, 0, 1⟩ true =
        some (.Succeeded, ⟨.Closed, 0, 2, 0, 1⟩, true)) ∧
    (∃ cb', TimeCB.call ⟨.Closed, 7, none, 0, 2, 0, 4⟩ 9 true =
        some (.Succeeded, cb', true) ∧ cb'.state = .Closed) :=
  ⟨C10.1 5,
   C10.2.2.2.2.2.2.1 7 4,
   C10.2.2.2.2.2.2.2.1 2 1 ⟨.Closed, 0, 2, 0, 1⟩ (by decide),
   (C10.2.2.2.2.2.2.2.2.2 7 4 2 ⟨.Closed, 7, none, 0, 2, 0, 4⟩ (by decide)).2.2.2.2 9⟩
